import Mathlib

/-!
Shallow embedding of the visit-counter core of the hypromotion repository:
the `VisitTracker` class (`src/models/VisitTracker.js`) and the country-code
validator (`src/utils/countryData.js`), over a model of the Redis hash stored
at the key `visit_stats` (the backend contract: HINCRBY / HGET / HGETALL / DEL).
-/

namespace Hypromotion

/-- JS `String.prototype.toLowerCase()` on the inputs this system handles:
lower-cases every character. -/
def jsToLower (s : String) : String :=
  ⟨s.data.map Char.toLower⟩

/-- JS `String.prototype.trim()`: removes leading and trailing whitespace. -/
def jsTrim (s : String) : String :=
  ⟨(((s.data.dropWhile Char.isWhitespace).reverse.dropWhile Char.isWhitespace).reverse)⟩

/-- Value of a run of decimal digit characters, most significant first,
accumulated left to right exactly as a base-10 positional parse. -/
def digitsVal (l : List Char) : Nat :=
  l.foldl (fun a c => a * 10 + (c.toNat - 48)) 0

/-- JS `parseInt(s, 10)`: skip leading whitespace, optional sign, then the
longest leading run of decimal digits.  JS yields NaN when that run is empty;
this model yields 0 there, a case no value stored by this system produces. -/
def parseInt10 (s : String) : Int :=
  match s.data.dropWhile Char.isWhitespace with
  | [] => 0
  | c :: rest =>
    if c = '-' then -(digitsVal (rest.takeWhile Char.isDigit) : Int)
    else if c = '+' then (digitsVal (rest.takeWhile Char.isDigit) : Int)
    else (digitsVal ((c :: rest).takeWhile Char.isDigit) : Int)

/-- One entry of the `country-list` dataset (`countries.getData()`): an
ISO 3166-1 alpha-2 code and a country name.  The dataset itself ships with an
external npm package, so it is a parameter of the model. -/
structure Country where
  code : String
  name : String
deriving DecidableEq

/-- The country-metadata collaborator: the `CountryData` class from
`src/utils/countryData.js`, holding the dataset loaded at construction. -/
structure CountryData where
  countries : List Country
deriving DecidableEq

/-- The `isValidCountryCode` method: `null`/non-string and the empty string are
rejected (JS falsiness), otherwise the input is lower-cased, trimmed, and
matched against the lower-cased code of some dataset entry. -/
def CountryData.isValidCountryCode (cd : CountryData) (countryCode : Option String) : Bool :=
  match countryCode with
  | none => false
  | some s =>
    if s = "" then false
    else
      let normalizedCode := jsTrim (jsToLower s)
      cd.countries.any fun c => jsToLower c.code = normalizedCode

/-- The Redis hash stored at the key `visit_stats`: field/value pairs in
insertion order, values being the decimal strings Redis keeps.  An absent key
is the empty hash (Redis hashes with no fields do not exist). -/
abbrev Hash := List (String × String)

/-- Redis `HGET`: the value of a field, or absent. -/
def hashGet : Hash → String → Option String
  | [], _ => none
  | (g, v) :: t, f => if g = f then some v else hashGet t f

/-- Field update inside a Redis hash: an existing field keeps its position,
a new field is appended at the end (Redis insertion order). -/
def hashSet : Hash → String → String → Hash
  | [], f, v => [(f, v)]
  | (g, w) :: t, f, v => if g = f then (g, v) :: t else (g, w) :: hashSet t f v

/-- Redis `HINCRBY`: read the field as an integer (an absent field counts as
0), add the increment, store the decimal string back, and return the new
value directly. -/
def hIncrBy (h : Hash) (f : String) (incr : Int) : Hash × Int :=
  let cur : Int :=
    match hashGet h f with
    | none => 0
    | some v => parseInt10 v
  let n := cur + incr
  (hashSet h f (toString n), n)

/-- The error thrown by the tracker on validation failure:
`Invalid country code: ${countryCode}`, carrying the original, un-normalized
input interpolated into the message. -/
structure InvalidCountryCode where
  input : Option String
deriving DecidableEq

/-- Result object of `trackVisit`. -/
structure TrackResult where
  success : Bool
  country : String
  count : Int
deriving DecidableEq

/-- One entry of the `getTopCountries` result. -/
structure TopEntry where
  country : String
  count : Int
deriving DecidableEq

/-- Result object of `resetStatistics`. -/
structure ResetResult where
  success : Bool
  message : String
deriving DecidableEq

namespace VisitTracker

/-- The `trackVisit(countryCode)` method: validate the raw input, then issue
one atomic HINCRBY on the field named by the lower-cased (not trimmed) input,
returning the post-increment count the backend hands back. -/
def trackVisit (cd : CountryData) (st : Hash) (countryCode : Option String) :
    Except InvalidCountryCode (Hash × TrackResult) :=
  if cd.isValidCountryCode countryCode then
    match countryCode with
    | some s =>
      let r := hIncrBy st (jsToLower s) 1
      .ok (r.1, { success := true, country := jsToLower s, count := r.2 })
    | none => .error ⟨countryCode⟩
  else .error ⟨countryCode⟩

/-- Backend state after a `trackVisit` call: unchanged when the call throws. -/
def trackState (cd : CountryData) (st : Hash) (c : Option String) : Hash :=
  match trackVisit cd st c with
  | .ok r => r.1
  | .error _ => st

/-- The `getStatistics()` method: HGETALL, then `parseInt` on every value. -/
def getStatistics (st : Hash) : List (String × Int) :=
  st.map fun p => (p.1, parseInt10 p.2)

/-- The `getCountryStats(countryCode)` method: validate, HGET one field, then
`count ? parseInt(count, 10) : 0` (absent and the empty string are falsy). -/
def getCountryStats (cd : CountryData) (st : Hash) (countryCode : Option String) :
    Except InvalidCountryCode Int :=
  if cd.isValidCountryCode countryCode then
    match countryCode with
    | some s =>
      match hashGet st (jsToLower s) with
      | some v => .ok (if v = "" then 0 else parseInt10 v)
      | none => .ok 0
    | none => .error ⟨countryCode⟩
  else .error ⟨countryCode⟩

/-- The `resetStatistics()` method: DEL on the whole key; deleting an absent
key succeeds as well (DEL returns 0, not an error). -/
def resetStatistics (_st : Hash) : Hash × ResetResult :=
  ([], { success := true, message := "Statistics reset successfully" })

/-- The `getTotalVisits()` method: reduce over the values of `getStatistics()`
starting from 0. -/
def getTotalVisits (st : Hash) : Int :=
  (getStatistics st).foldl (fun total p => total + p.2) 0

/-- JS `arr.slice(0, limit)`: a non-negative end index truncates to `limit`
entries, a negative end index counts back from the end of the array. -/
def jsSliceTo (l : List α) (limit : Int) : List α :=
  if limit < 0 then l.take (l.length - limit.natAbs)
  else l.take limit.toNat

/-- The comparator `(a, b) => b.count - a.count`: `a` may precede `b`
exactly when `a.count ≥ b.count` (descending by count, stable on ties). -/
def byCountDesc (a b : TopEntry) : Bool :=
  b.count ≤ a.count

/-- The `getTopCountries(limit = 10)` method: map `getStatistics()` entries to
`{country, count}` records, sort descending by count (JS `Array.prototype.sort`
is stable), then `slice(0, limit)`. -/
def getTopCountries (st : Hash) (limit : Int := 10) : List TopEntry :=
  jsSliceTo (((getStatistics st).map fun p => TopEntry.mk p.1 p.2).mergeSort byCountDesc) limit

/-- Sequential composition: the backend state after `n` successive
`trackVisit c` calls starting from `st`. -/
def trackN (cd : CountryData) (st : Hash) (c : Option String) : Nat → Hash
  | 0 => st
  | n + 1 => trackState cd (trackN cd st c n) c

/-- Backend states reachable from a fresh store through the tracker's mutating
operations: `trackVisit` on arbitrary input and `resetStatistics`. -/
inductive Reachable (cd : CountryData) : Hash → Prop
  | empty : Reachable cd []
  | track {st : Hash} (c : Option String) : Reachable cd st → Reachable cd (trackState cd st c)
  | reset {st : Hash} : Reachable cd st → Reachable cd (resetStatistics st).1

end VisitTracker

/-- The country dataset the repository's own test suite fixes in its mock of
`src/utils/countryData.js` (`tests/routes/countries.test.js`). -/
def mockCountryData : CountryData :=
  ⟨[⟨"us", "United States"⟩, ⟨"uk", "United Kingdom"⟩, ⟨"de", "Germany"⟩,
    ⟨"fr", "France"⟩, ⟨"it", "Italy"⟩, ⟨"es", "Spain"⟩, ⟨"ca", "Canada"⟩,
    ⟨"au", "Australia"⟩, ⟨"jp", "Japan"⟩, ⟨"br", "Brazil"⟩]⟩


theorem ws_false_of_isDigit {c : Char} (h : c.isDigit = true) : c.isWhitespace = false := by
  by_contra hw
  rw [Bool.not_eq_false] at hw
  have hc : ((c = ' ' ∨ c = '\t') ∨ c = '\r') ∨ c = '\n' := by
    simpa [Char.isWhitespace] using hw
  rcases hc with ((rfl | rfl) | rfl) | rfl <;> exact absurd h (by decide)

theorem ne_dash_of_isDigit {c : Char} (h : c.isDigit = true) : c ≠ '-' := by
  rintro rfl; exact absurd h (by decide)

theorem ne_plus_of_isDigit {c : Char} (h : c.isDigit = true) : c ≠ '+' := by
  rintro rfl; exact absurd h (by decide)

theorem digitChar_toNat_sub {d : Nat} (h : d < 10) : (Nat.digitChar d).toNat - 48 = d := by
  interval_cases d <;> rfl

theorem digitChar_isDigit {d : Nat} (h : d < 10) : (Nat.digitChar d).isDigit = true := by
  interval_cases d <;> rfl

/-- Accumulator form of appending the decimal digits of `n` after `a`. -/
def pushDigits (a : Nat) (n : Nat) : Nat :=
  if h : n < 10 then a * 10 + n
  else pushDigits a (n / 10) * 10 + n % 10
termination_by n
decreasing_by exact Nat.div_lt_self (by omega) (by omega)

theorem pushDigits_self (n : Nat) : pushDigits 0 n = n := by
  induction n using Nat.strong_induction_on with
  | _ n ih =>
    rw [pushDigits]
    split
    · omega
    · rename_i h
      rw [ih (n / 10) (Nat.div_lt_self (by omega) (by omega))]
      omega

theorem toDigitsCore_fold (fuel : Nat) :
    ∀ (n : Nat), n < fuel → ∀ (ds : List Char) (a : Nat),
    (Nat.toDigitsCore 10 fuel n ds).foldl (fun a c => a * 10 + (c.toNat - 48)) a =
      ds.foldl (fun a c => a * 10 + (c.toNat - 48)) (pushDigits a n) := by
  induction fuel with
  | zero => omega
  | succ fuel ih =>
    intro n hn ds a
    rw [Nat.toDigitsCore]
    by_cases h10 : n / 10 = 0
    · rw [if_pos h10]
      have hlt : n < 10 := by omega
      rw [List.foldl_cons, digitChar_toNat_sub (Nat.mod_lt _ (by omega)),
        Nat.mod_eq_of_lt hlt, pushDigits, dif_pos hlt]
    · rw [if_neg h10]
      have hge : 10 ≤ n := by
        by_contra hx
        exact h10 (Nat.div_eq_of_lt (by omega))
      have hdiv : n / 10 < fuel := by
        have := Nat.div_lt_self (show 0 < n by omega) (show 1 < 10 by omega)
        omega
      rw [ih (n / 10) hdiv (Nat.digitChar (n % 10) :: ds) a, List.foldl_cons,
        digitChar_toNat_sub (Nat.mod_lt _ (by omega))]
      conv_rhs => rw [pushDigits, dif_neg (by omega)]

theorem toDigitsCore_isDigit (fuel : Nat) :
    ∀ (n : Nat) (ds : List Char), (∀ c ∈ ds, c.isDigit = true) →
    ∀ c ∈ Nat.toDigitsCore 10 fuel n ds, c.isDigit = true := by
  induction fuel with
  | zero => intro n ds hds; simpa [Nat.toDigitsCore] using hds
  | succ fuel ih =>
    intro n ds hds
    rw [Nat.toDigitsCore]
    have hcons : ∀ c ∈ Nat.digitChar (n % 10) :: ds, c.isDigit = true := by
      intro c hc
      rcases List.mem_cons.mp hc with rfl | hc
      · exact digitChar_isDigit (Nat.mod_lt _ (by omega))
      · exact hds c hc
    by_cases h10 : n / 10 = 0
    · rw [if_pos h10]; exact hcons
    · rw [if_neg h10]; exact ih (n / 10) _ hcons

theorem toDigitsCore_acc_ne_nil (fuel : Nat) :
    ∀ (n : Nat) (ds : List Char), ds ≠ [] → Nat.toDigitsCore 10 fuel n ds ≠ [] := by
  induction fuel with
  | zero => intro n ds h; simpa [Nat.toDigitsCore] using h
  | succ fuel ih =>
    intro n ds h
    rw [Nat.toDigitsCore]
    by_cases h10 : n / 10 = 0
    · rw [if_pos h10]; simp
    · rw [if_neg h10]; exact ih (n / 10) _ (by simp)

theorem toDigits_ne_nil (n : Nat) : Nat.toDigits 10 n ≠ [] := by
  rw [Nat.toDigits, Nat.toDigitsCore]
  by_cases h10 : n / 10 = 0
  · rw [if_pos h10]; simp
  · rw [if_neg h10]; exact toDigitsCore_acc_ne_nil _ _ _ (by simp)

theorem toDigits_isDigit (n : Nat) : ∀ c ∈ Nat.toDigits 10 n, c.isDigit = true :=
  toDigitsCore_isDigit _ _ _ (by simp)

theorem digitsVal_toDigits (n : Nat) : digitsVal (Nat.toDigits 10 n) = n := by
  rw [digitsVal, Nat.toDigits, toDigitsCore_fold (n + 1) n (by omega) [] 0]
  simpa using pushDigits_self n

theorem dropWhile_ws_of_digits {l : List Char} (h : ∀ c ∈ l, c.isDigit = true) :
    l.dropWhile Char.isWhitespace = l := by
  cases l with
  | nil => rfl
  | cons c t =>
    rw [List.dropWhile_cons, ws_false_of_isDigit (h c (by simp))]
    simp

theorem takeWhile_digits_of_digits {l : List Char} (h : ∀ c ∈ l, c.isDigit = true) :
    l.takeWhile Char.isDigit = l := by
  induction l with
  | nil => rfl
  | cons c t ih =>
    rw [List.takeWhile_cons, h c (by simp)]
    simp only [if_true]
    rw [ih fun c hc => h c (by simp [hc])]

theorem natRepr_data (n : Nat) : (Nat.repr n).data = Nat.toDigits 10 n := rfl

theorem parseInt10_natRepr (n : Nat) : parseInt10 (Nat.repr n) = (n : Int) := by
  have hdig := toDigits_isDigit n
  have hne := toDigits_ne_nil n
  unfold parseInt10
  rw [natRepr_data, dropWhile_ws_of_digits hdig]
  obtain ⟨c, rest, hcr⟩ := List.exists_cons_of_ne_nil hne
  rw [hcr]
  have hcd : c.isDigit = true := hdig c (by rw [hcr]; simp)
  dsimp only
  rw [if_neg (ne_dash_of_isDigit hcd), if_neg (ne_plus_of_isDigit hcd), ← hcr,
    takeWhile_digits_of_digits hdig, digitsVal_toDigits]

theorem natRepr_ne_empty (n : Nat) : Nat.repr n ≠ "" := by
  intro h
  exact toDigits_ne_nil n (congrArg String.data h)

theorem toString_int_natCast (n : Nat) : toString ((n : Nat) : Int) = Nat.repr n := rfl

theorem parseInt10_toString_natCast (n : Nat) : parseInt10 (toString ((n : Nat) : Int)) = n := by
  rw [toString_int_natCast, parseInt10_natRepr]



theorem hashGet_hashSet_self (st : Hash) (f v : String) :
    hashGet (hashSet st f v) f = some v := by
  induction st with
  | nil => simp [hashSet, hashGet]
  | cons p t ih =>
    obtain ⟨g, w⟩ := p
    by_cases h : g = f
    · simp [hashSet, hashGet, h]
    · simp [hashSet, hashGet, h, ih]

theorem hashGet_mem {st : Hash} {f v : String} (h : hashGet st f = some v) :
    (f, v) ∈ st := by
  induction st with
  | nil => simp [hashGet] at h
  | cons p t ih =>
    obtain ⟨g, w⟩ := p
    rw [hashGet] at h
    by_cases hg : g = f
    · rw [if_pos hg] at h
      subst hg
      simp at h
      simp [h]
    · rw [if_neg hg] at h
      simp [ih h]

theorem mem_hashSet {st : Hash} {f v : String} {p : String × String}
    (hp : p ∈ hashSet st f v) : p = (f, v) ∨ p ∈ st := by
  induction st with
  | nil => simp [hashSet] at hp; simp [hp]
  | cons q t ih =>
    obtain ⟨g, w⟩ := q
    rw [hashSet] at hp
    by_cases hg : g = f
    · rw [if_pos hg] at hp
      subst hg
      rcases List.mem_cons.mp hp with rfl | hp
      · exact Or.inl rfl
      · exact Or.inr (List.mem_cons_of_mem _ hp)
    · rw [if_neg hg] at hp
      rcases List.mem_cons.mp hp with rfl | hp
      · exact Or.inr (List.mem_cons_self _ _)
      · rcases ih hp with h | h
        · exact Or.inl h
        · exact Or.inr (List.mem_cons_of_mem _ h)

namespace VisitTracker

theorem trackVisit_valid (cd : CountryData) (st : Hash) (s : String)
    (hv : cd.isValidCountryCode (some s) = true) :
    trackVisit cd st (some s) =
      .ok ((hIncrBy st (jsToLower s) 1).1,
        { success := true, country := jsToLower s, count := (hIncrBy st (jsToLower s) 1).2 }) := by
  rw [trackVisit.eq_def, if_pos hv]

theorem trackVisit_invalid (cd : CountryData) (st : Hash) (c : Option String)
    (hv : cd.isValidCountryCode c = false) :
    trackVisit cd st c = .error ⟨c⟩ := by
  rw [trackVisit.eq_def, if_neg (by simp [hv])]

theorem trackState_valid (cd : CountryData) (st : Hash) (s : String)
    (hv : cd.isValidCountryCode (some s) = true) :
    trackState cd st (some s) = (hIncrBy st (jsToLower s) 1).1 := by
  rw [trackState, trackVisit_valid cd st s hv]

theorem trackState_invalid (cd : CountryData) (st : Hash) (c : Option String)
    (hv : cd.isValidCountryCode c = false) :
    trackState cd st c = st := by
  rw [trackState, trackVisit_invalid cd st c hv]

theorem hIncrBy_absent {st : Hash} {f : String} (h : hashGet st f = none) :
    hIncrBy st f 1 = (hashSet st f (toString (1 : Int)), 1) := by
  rw [hIncrBy, h]
  rfl

theorem hIncrBy_present {st : Hash} {f v : String} (h : hashGet st f = some v) :
    hIncrBy st f 1 = (hashSet st f (toString (parseInt10 v + 1)), parseInt10 v + 1) := by
  rw [hIncrBy, h]

theorem trackN_hashGet (cd : CountryData) (st : Hash) (s : String)
    (hv : cd.isValidCountryCode (some s) = true)
    (habs : hashGet st (jsToLower s) = none) :
    ∀ k : Nat, hashGet (trackN cd st (some s) k) (jsToLower s)
      = if k = 0 then none else some (toString ((k : Nat) : Int)) := by
  intro k
  induction k with
  | zero => simpa [trackN] using habs
  | succ k ih =>
    rw [trackN, trackState_valid cd _ s hv]
    by_cases hk : k = 0
    · subst hk
      rw [if_pos rfl] at ih
      rw [hIncrBy_absent ih]
      simp [hashGet_hashSet_self]
    · rw [if_neg hk] at ih
      rw [hIncrBy_present ih]
      simp only [if_neg (Nat.succ_ne_zero k), parseInt10_toString_natCast k]
      rw [show ((k : Int) + 1) = (((k + 1 : Nat)) : Int) by push_cast; ring]
      simp [hashGet_hashSet_self]

end VisitTracker


namespace VisitTracker

/-- C1: for a valid country code whose hash field is absent, `n` sequential
`trackVisit` calls yield `getCountryStats == n`, and the `i`-th call returns
the post-increment count `i` straight from the backend (no re-read). -/
theorem claim1_increment_correctness (cd : CountryData) (st : Hash) (s : String) (n : Nat)
    (hv : cd.isValidCountryCode (some s) = true)
    (habs : hashGet st (jsToLower s) = none) :
    getCountryStats cd (trackN cd st (some s) n) (some s) = .ok (n : Int) ∧
    ∀ i : Nat, i < n → trackVisit cd (trackN cd st (some s) i) (some s) =
      .ok (trackN cd st (some s) (i + 1),
        { success := true, country := jsToLower s, count := ((i + 1 : Nat) : Int) }) := by
  constructor
  · rw [getCountryStats.eq_def, if_pos hv]
    have hg := trackN_hashGet cd st s hv habs n
    by_cases hn : n = 0
    · subst hn
      rw [if_pos rfl] at hg
      simp only [hg]
      rfl
    · rw [if_neg hn] at hg
      simp only [hg, toString_int_natCast]
      simp [natRepr_ne_empty n, parseInt10_natRepr]
  · intro i _
    rw [trackVisit_valid cd _ s hv]
    have hg := trackN_hashGet cd st s hv habs i
    have hstep : trackN cd st (some s) (i + 1)
        = (hIncrBy (trackN cd st (some s) i) (jsToLower s) 1).1 := by
      rw [trackN, trackState_valid cd _ s hv]
    by_cases hi0 : i = 0
    · subst hi0
      rw [if_pos rfl] at hg
      rw [hstep, hIncrBy_absent hg]
      norm_num
    · rw [if_neg hi0] at hg
      rw [hstep, hIncrBy_present hg]
      simp only [parseInt10_toString_natCast i]
      norm_num

theorem claim1_witness :
    (mockCountryData.isValidCountryCode (some "us") = true ∧
      hashGet [] (jsToLower "us") = none) ∧
    (getCountryStats mockCountryData (trackN mockCountryData [] (some "us") 3) (some "us")
        = .ok ((3 : Nat) : Int) ∧
      ∀ i : Nat, i < 3 → trackVisit mockCountryData (trackN mockCountryData [] (some "us") i)
          (some "us") =
        .ok (trackN mockCountryData [] (some "us") (i + 1),
          { success := true, country := jsToLower "us", count := ((i + 1 : Nat) : Int) })) :=
  ⟨⟨by decide, by decide⟩,
    claim1_increment_correctness mockCountryData [] "us" 3 (by decide) (by decide)⟩

/-- C4: every input that fails country-code validation makes `trackVisit`
throw `Invalid country code` carrying the original un-normalized input, and
leaves the backend hash unchanged. -/
theorem claim4_invalid_input_rejected (cd : CountryData) (st : Hash) (c : Option String)
    (hv : cd.isValidCountryCode c = false) :
    trackVisit cd st c = .error ⟨c⟩ ∧ trackState cd st c = st :=
  ⟨trackVisit_invalid cd st c hv, trackState_invalid cd st c hv⟩

theorem claim4_witness :
    (mockCountryData.isValidCountryCode (some "INVALID") = false ∧
      trackVisit mockCountryData [("us", "1")] (some "INVALID") = .error ⟨some "INVALID"⟩ ∧
      trackState mockCountryData [("us", "1")] (some "INVALID") = [("us", "1")]) ∧
    (mockCountryData.isValidCountryCode (some "") = false ∧
      trackVisit mockCountryData [("us", "1")] (some "") = .error ⟨some ""⟩ ∧
      trackState mockCountryData [("us", "1")] (some "") = [("us", "1")]) ∧
    (mockCountryData.isValidCountryCode none = false ∧
      trackVisit mockCountryData [("us", "1")] none = .error ⟨none⟩ ∧
      trackState mockCountryData [("us", "1")] none = [("us", "1")]) :=
  ⟨⟨by decide, (claim4_invalid_input_rejected mockCountryData [("us", "1")]
      (some "INVALID") (by decide)).1,
    (claim4_invalid_input_rejected mockCountryData [("us", "1")] (some "INVALID") (by decide)).2⟩,
  ⟨by decide, (claim4_invalid_input_rejected mockCountryData [("us", "1")]
      (some "") (by decide)).1,
    (claim4_invalid_input_rejected mockCountryData [("us", "1")] (some "") (by decide)).2⟩,
  ⟨by decide, (claim4_invalid_input_rejected mockCountryData [("us", "1")]
      none (by decide)).1,
    (claim4_invalid_input_rejected mockCountryData [("us", "1")] none (by decide)).2⟩⟩

/-- C7: for a valid country code whose hash field is absent, `getCountryStats`
returns exactly 0 (a present value, not an absence and not an error). -/
theorem claim7_absent_field_reads_zero (cd : CountryData) (st : Hash) (s : String)
    (hv : cd.isValidCountryCode (some s) = true)
    (habs : hashGet st (jsToLower s) = none) :
    getCountryStats cd st (some s) = .ok 0 := by
  rw [getCountryStats.eq_def, if_pos hv]
  simp only [habs]

theorem claim7_witness :
    (mockCountryData.isValidCountryCode (some "de") = true ∧
      hashGet [("us", "4")] (jsToLower "de") = none) ∧
    getCountryStats mockCountryData [("us", "4")] (some "de") = .ok 0 :=
  ⟨⟨by decide, by decide⟩,
    claim7_absent_field_reads_zero mockCountryData [("us", "4")] "de" (by decide) (by decide)⟩

/-- C8: `resetStatistics` succeeds from any prior state (including an absent
key), is idempotent, and afterwards `getStatistics` is empty and
`getCountryStats` is 0 for every valid code. -/
theorem claim8_reset_idempotent_total (cd : CountryData) (st : Hash) :
    (resetStatistics st).2 = { success := true, message := "Statistics reset successfully" } ∧
    resetStatistics (resetStatistics st).1 = resetStatistics st ∧
    getStatistics (resetStatistics st).1 = [] ∧
    ∀ c : Option String, cd.isValidCountryCode c = true →
      getCountryStats cd (resetStatistics st).1 c = .ok 0 := by
  refine ⟨rfl, rfl, rfl, ?_⟩
  intro c hc
  cases c with
  | none => exact absurd hc (by simp [CountryData.isValidCountryCode])
  | some s =>
    rw [getCountryStats.eq_def, if_pos hc]
    rfl

theorem claim8_witness :
    (mockCountryData.isValidCountryCode (some "jp") = true) ∧
    ((resetStatistics ([] : Hash)).2
        = { success := true, message := "Statistics reset successfully" } ∧
      (resetStatistics [("us", "7"), ("uk", "2")]).2
        = { success := true, message := "Statistics reset successfully" } ∧
      getStatistics (resetStatistics [("us", "7"), ("uk", "2")]).1 = [] ∧
      getCountryStats mockCountryData (resetStatistics [("us", "7"), ("uk", "2")]).1
        (some "jp") = .ok 0) :=
  ⟨by decide,
    (claim8_reset_idempotent_total mockCountryData ([] : Hash)).1,
    (claim8_reset_idempotent_total mockCountryData [("us", "7"), ("uk", "2")]).1,
    (claim8_reset_idempotent_total mockCountryData [("us", "7"), ("uk", "2")]).2.2.1,
    (claim8_reset_idempotent_total mockCountryData [("us", "7"), ("uk", "2")]).2.2.2
      (some "jp") (by decide)⟩

end VisitTracker

namespace VisitTracker

theorem foldl_add_snd (l : List (String × Int)) :
    ∀ a : Int, l.foldl (fun total p => total + p.2) a = a + (l.map Prod.snd).sum := by
  induction l with
  | nil => intro a; simp
  | cons p t ih => intro a; simp [ih, add_assoc]

/-- C2: `getTotalVisits` always equals the sum of the values of
`getStatistics`, and is 0 on the empty table. -/
theorem claim2_total_is_sum_of_statistics (st : Hash) :
    getTotalVisits st = ((getStatistics st).map Prod.snd).sum ∧
    getTotalVisits ([] : Hash) = 0 := by
  constructor
  · rw [getTotalVisits, foldl_add_snd]
    simp
  · rfl

theorem byCountDesc_trans :
    ∀ a b c : TopEntry, byCountDesc a b → byCountDesc b c → byCountDesc a c := by
  intro a b c hab hbc
  simp only [byCountDesc, decide_eq_true_eq] at *
  omega

theorem byCountDesc_total : ∀ a b : TopEntry, byCountDesc a b || byCountDesc b a := by
  intro a b
  simp only [byCountDesc, Bool.or_eq_true, decide_eq_true_eq]
  omega

/-- C3: `getTopCountries(k)` for positive `k` has at most `k` entries, is
sorted by count descending, its pairs all occur in `getStatistics` with the
same counts, and it is empty on the empty table. -/
theorem claim3_top_countries_shape (st : Hash) (k : Int) (hk : 0 < k) :
    (getTopCountries st k).length ≤ k.toNat ∧
    (getTopCountries st k).Pairwise (fun a b => b.count ≤ a.count) ∧
    (∀ e ∈ getTopCountries st k, (e.country, e.count) ∈ getStatistics st) ∧
    (st = [] → getTopCountries st k = []) := by
  have hnneg : ¬ k < 0 := by omega
  refine ⟨?_, ?_, ?_, ?_⟩
  · rw [getTopCountries, jsSliceTo, if_neg hnneg]
    exact List.length_take_le _ _
  · have hs : (((getStatistics st).map fun p => TopEntry.mk p.1 p.2).mergeSort
        byCountDesc).Pairwise (fun a b => byCountDesc a b = true) :=
      List.sorted_mergeSort byCountDesc_trans byCountDesc_total _
    rw [getTopCountries, jsSliceTo, if_neg hnneg]
    exact (List.Pairwise.sublist (List.take_sublist _ _) hs).imp
      (fun h => by simpa [byCountDesc] using h)
  · intro e he
    rw [getTopCountries, jsSliceTo, if_neg hnneg] at he
    have hm : e ∈ ((getStatistics st).map fun p => TopEntry.mk p.1 p.2).mergeSort
        byCountDesc := (List.take_sublist _ _).subset he
    rw [List.mem_mergeSort] at hm
    obtain ⟨p, hp, rfl⟩ := List.mem_map.mp hm
    simpa using hp
  · rintro rfl
    rw [getTopCountries, jsSliceTo]
    simp [getStatistics]

theorem claim3_witness :
    (0 : Int) < 1 ∧
    ((getTopCountries [("us", "2"), ("de", "1")] 1).length ≤ (1 : Int).toNat ∧
      (getTopCountries [("us", "2"), ("de", "1")] 1).Pairwise
        (fun a b => b.count ≤ a.count) ∧
      (∀ e ∈ getTopCountries [("us", "2"), ("de", "1")] 1,
        (e.country, e.count) ∈ getStatistics [("us", "2"), ("de", "1")]) ∧
      (([("us", "2"), ("de", "1")] : Hash) = [] →
        getTopCountries [("us", "2"), ("de", "1")] 1 = [])) :=
  ⟨by decide, claim3_top_countries_shape [("us", "2"), ("de", "1")] 1 (by decide)⟩

/-- C5: `trackVisit` lower-cases before incrementing, so case-variant inputs
share one hash field; the concrete scenario us, US, uk yields statistics
`{us: 2, uk: 1}`, total 3 and top-1 `[{country: us, count: 2}]`. -/
theorem claim5_case_normalization (cd : CountryData)
    (hus : cd.isValidCountryCode (some "us") = true)
    (hUS : cd.isValidCountryCode (some "US") = true)
    (huk : cd.isValidCountryCode (some "uk") = true) :
    (∀ (st : Hash) (s : String), cd.isValidCountryCode (some s) = true →
      trackVisit cd st (some s) =
        .ok ((hIncrBy st (jsToLower s) 1).1,
          { success := true, country := jsToLower s,
            count := (hIncrBy st (jsToLower s) 1).2 })) ∧
    trackVisit cd [] (some "us")
      = .ok ([("us", "1")], { success := true, country := "us", count := 1 }) ∧
    trackVisit cd [("us", "1")] (some "US")
      = .ok ([("us", "2")], { success := true, country := "us", count := 2 }) ∧
    trackVisit cd [("us", "2")] (some "uk")
      = .ok ([("us", "2"), ("uk", "1")], { success := true, country := "uk", count := 1 }) ∧
    getStatistics [("us", "2"), ("uk", "1")] = [("us", 2), ("uk", 1)] ∧
    getTotalVisits [("us", "2"), ("uk", "1")] = 3 ∧
    getTopCountries [("us", "2"), ("uk", "1")] 1 = [⟨"us", 2⟩] := by
  refine ⟨fun st s hv => trackVisit_valid cd st s hv, ?_, ?_, ?_, by decide, by decide, ?_⟩
  · rw [trackVisit_valid cd _ _ hus]; rfl
  · rw [trackVisit_valid cd _ _ hUS]; rfl
  · rw [trackVisit_valid cd _ _ huk]; rfl
  · have h1 : ((getStatistics [("us", "2"), ("uk", "1")]).map fun p => TopEntry.mk p.1 p.2)
        = [⟨"us", 2⟩, ⟨"uk", 1⟩] := by decide
    rw [getTopCountries, h1, List.mergeSort_of_sorted (by decide)]
    decide

theorem claim5_witness :
    (mockCountryData.isValidCountryCode (some "us") = true ∧
      mockCountryData.isValidCountryCode (some "US") = true ∧
      mockCountryData.isValidCountryCode (some "uk") = true) ∧
    (trackVisit mockCountryData [] (some "us")
        = .ok ([("us", "1")], { success := true, country := "us", count := 1 }) ∧
      trackVisit mockCountryData [("us", "1")] (some "US")
        = .ok ([("us", "2")], { success := true, country := "us", count := 2 }) ∧
      trackVisit mockCountryData [("us", "2")] (some "uk")
        = .ok ([("us", "2"), ("uk", "1")], { success := true, country := "uk", count := 1 }) ∧
      getStatistics [("us", "2"), ("uk", "1")] = [("us", 2), ("uk", 1)] ∧
      getTotalVisits [("us", "2"), ("uk", "1")] = 3 ∧
      getTopCountries [("us", "2"), ("uk", "1")] 1 = [⟨"us", 2⟩]) :=
  ⟨⟨by decide, by decide, by decide⟩,
    (claim5_case_normalization mockCountryData (by decide) (by decide) (by decide)).2⟩

end VisitTracker

namespace VisitTracker

/-- C10: the validator trims before matching, so an input like `" us "` is
accepted, and `trackVisit` then increments the field named by the lower-cased
but un-trimmed input — a field distinct from the bare code's own field. -/
theorem claim10_untrimmed_field_incremented (cd : CountryData)
    (hus : (cd.countries.any fun c => jsToLower c.code = "us") = true) :
    cd.isValidCountryCode (some " us ") = true ∧
    trackVisit cd [] (some " us ")
      = .ok ([(" us ", "1")], { success := true, country := " us ", count := 1 }) ∧
    (" us " : String) ≠ "us" ∧
    hashGet [(" us ", "1")] "us" = none := by
  have hval : cd.isValidCountryCode (some " us ") = true := by
    simp only [CountryData.isValidCountryCode]
    rw [if_neg (by decide), show jsTrim (jsToLower " us ") = "us" from by decide]
    exact hus
  refine ⟨hval, ?_, by decide, by decide⟩
  rw [trackVisit_valid cd _ _ hval]
  rfl

theorem claim10_witness :
    (mockCountryData.countries.any fun c => jsToLower c.code = "us") = true ∧
    (mockCountryData.isValidCountryCode (some " us ") = true ∧
      trackVisit mockCountryData [] (some " us ")
        = .ok ([(" us ", "1")], { success := true, country := " us ", count := 1 }) ∧
      (" us " : String) ≠ "us" ∧
      hashGet [(" us ", "1")] "us" = none) :=
  ⟨by decide, claim10_untrimmed_field_incremented mockCountryData (by decide)⟩

/-- C6 as stated is false: a validated input surrounded by whitespace is
stored with its whitespace kept, so a reachable state can hold a field name
that is not two characters long (hence not a two-letter code). -/
theorem claim6_counterexample :
    ¬ (∀ st : Hash, Reachable mockCountryData st → ∀ p ∈ st, p.1.length = 2) := by
  intro h
  have h0 : Reachable mockCountryData [] := Reachable.empty
  have hr := Reachable.track (some " us ") h0
  rw [show trackState mockCountryData [] (some " us ") = [(" us ", "1")] from by decide] at hr
  have h2 := h _ hr (" us ", "1") (List.mem_singleton.mpr rfl)
  exact absurd h2 (by decide)

/-- C6 amended: in every reachable state, each persisted field name is the
lower-cased but un-trimmed form of a validated input — its trimmed form
matches a known country code — and each persisted value is the decimal string
of a positive integer. -/
theorem claim6_amended_invariant (cd : CountryData) (st : Hash) (hst : Reachable cd st) :
    ∀ p ∈ st, (cd.countries.any fun c => jsToLower c.code = jsTrim p.1) = true ∧
      ∃ k : Nat, 0 < k ∧ p.2 = Nat.repr k := by
  induction hst with
  | empty => intro p hp; simp at hp
  | track c _ ih =>
    intro p hp
    cases hv : cd.isValidCountryCode c with
    | false =>
      rw [trackState_invalid _ _ _ hv] at hp
      exact ih p hp
    | true =>
      cases c with
      | none => simp [CountryData.isValidCountryCode] at hv
      | some s =>
        rw [trackState_valid _ _ _ hv] at hp
        have hkey : (cd.countries.any fun c => jsToLower c.code = jsTrim (jsToLower s))
            = true := by
          simp only [CountryData.isValidCountryCode] at hv
          by_cases hs : s = ""
          · rw [if_pos hs] at hv; cases hv
          · rwa [if_neg hs] at hv
        cases hget : hashGet _ (jsToLower s) with
        | none =>
          rw [hIncrBy_absent hget] at hp
          rcases mem_hashSet hp with rfl | hp'
          · exact ⟨hkey, 1, by omega, rfl⟩
          · exact ih p hp'
        | some v =>
          rw [hIncrBy_present hget] at hp
          rcases mem_hashSet hp with rfl | hp'
          · obtain ⟨-, k, hk, hvv⟩ := ih (jsToLower s, v) (hashGet_mem hget)
            simp only at hvv
            subst hvv
            refine ⟨hkey, k + 1, by omega, ?_⟩
            simp only [parseInt10_natRepr k]
            rw [show ((k : Int) + 1) = (((k + 1 : Nat)) : Int) by push_cast; ring,
              toString_int_natCast]
          · exact ih p hp'
  | reset _ ih => intro p hp; simp [resetStatistics] at hp

theorem claim6_witness :
    Reachable mockCountryData [("us", "1")] ∧
    ∀ p ∈ ([("us", "1")] : Hash),
      (mockCountryData.countries.any fun c => jsToLower c.code = jsTrim p.1) = true ∧
      ∃ k : Nat, 0 < k ∧ p.2 = Nat.repr k := by
  have h0 : Reachable mockCountryData [] := Reachable.empty
  have hr := Reachable.track (some "us") h0
  rw [show trackState mockCountryData [] (some "us") = [("us", "1")] from by decide] at hr
  exact ⟨hr, claim6_amended_invariant mockCountryData _ hr⟩

/-- C9 as stated is false: a negative limit reaches `slice(0, limit)`, whose
negative end counts back from the end of the array instead of producing the
empty sequence. -/
theorem claim9_counterexample :
    ¬ (∀ (st : Hash) (k : Int), k ≤ 0 → getTopCountries st k = []) := by
  intro h
  have hx := h [("us", "2"), ("de", "1")] (-1) (by omega)
  have h1 : ((getStatistics [("us", "2"), ("de", "1")]).map fun p => TopEntry.mk p.1 p.2)
      = [⟨"us", 2⟩, ⟨"de", 1⟩] := by decide
  rw [getTopCountries, h1, List.mergeSort_of_sorted (by decide)] at hx
  exact absurd hx (by decide)

/-- C9 amended: a zero limit returns the empty sequence; a negative limit `-m`
returns all but the last `m` sorted entries (JS `slice` end semantics); the
absent limit defaults to 10; a positive limit never fails and returns
`min(limit, size)` entries, the whole table when the limit exceeds its size. -/
theorem claim9_limit_handling (st : Hash) :
    getTopCountries st = getTopCountries st 10 ∧
    getTopCountries st 0 = [] ∧
    (∀ k : Int, k < 0 →
      (getTopCountries st k).length = (getStatistics st).length - k.natAbs) ∧
    (∀ k : Int, 0 < k →
      (getTopCountries st k).length = min k.toNat (getStatistics st).length) := by
  refine ⟨rfl, ?_, ?_, ?_⟩
  · rw [getTopCountries, jsSliceTo, if_neg (by omega)]
    simp
  · intro k hk
    rw [getTopCountries, jsSliceTo, if_pos hk]
    simp only [List.length_take, List.length_mergeSort, List.length_map]
    exact Nat.min_eq_left (Nat.sub_le _ _)
  · intro k hk
    rw [getTopCountries, jsSliceTo, if_neg (by omega)]
    simp only [List.length_take, List.length_mergeSort, List.length_map]

theorem claim9_witness :
    getTopCountries [("us", "2"), ("de", "1")] 0 = [] ∧
    ((-1 : Int) < 0 ∧
      (getTopCountries [("us", "2"), ("de", "1")] (-1)).length
        = (getStatistics [("us", "2"), ("de", "1")]).length - (-1 : Int).natAbs) ∧
    ((0 : Int) < 5 ∧
      (getTopCountries [("us", "2"), ("de", "1")] 5).length
        = min (5 : Int).toNat (getStatistics [("us", "2"), ("de", "1")]).length) :=
  ⟨(claim9_limit_handling [("us", "2"), ("de", "1")]).2.1,
    ⟨by decide, (claim9_limit_handling [("us", "2"), ("de", "1")]).2.2.1 (-1) (by decide)⟩,
    ⟨by decide, (claim9_limit_handling [("us", "2"), ("de", "1")]).2.2.2 5 (by decide)⟩⟩

end VisitTracker

end Hypromotion
